import Mathlib

/-!
Shallow embedding of the antventure repository: a Langton-style walker on a
fixed rectangular grid of binary cells, in two variants.

Source files embedded:
  - src/bin/naive.rs   (array-of-bool grid, walker with explicit bounds checks)
  - src/bin/serious.rs (bit-packed grid, constructively validated positions)

Machine integers: Rust isize is modelled as Int; the wrap-around of
`as usize` casts is modelled explicitly modulo 2^64.  The BoolVec storage of
the serious variant is modelled as a List Bool in cell order, with
count() = length and count_ones() = number of true entries.
-/

/-- MAP_SIZE constant, 1024 in both source files. -/
def MAP_SIZE : Nat := 1024

/-- enum Direction, shared verbatim by both source files. -/
inductive Direction : Type where
  | North : Direction
  | East : Direction
  | South : Direction
  | West : Direction
deriving DecidableEq, Repr, Fintype

/-- The discriminant of the Rust enum (North = 0, East = 1, South = 2, West = 3). -/
def Direction.toIdx : Direction → Nat
  | .North => 0
  | .East => 1
  | .South => 2
  | .West => 3

/-- Direction::VARIANTS. -/
def Direction.VARIANTS : List Direction :=
  [Direction.North, Direction.East, Direction.South, Direction.West]

/-- Direction::cw — VARIANTS[(self as usize + 1) % VARIANTS.len()]. -/
def Direction.cw (d : Direction) : Direction :=
  Direction.VARIANTS.getD ((d.toIdx + 1) % Direction.VARIANTS.length) Direction.North

/-- Direction::ccw — VARIANTS[(self as isize - 1).rem_euclid(VARIANTS.len())]. -/
def Direction.ccw (d : Direction) : Direction :=
  Direction.VARIANTS.getD
    (((d.toIdx : Int) - 1).emod (Direction.VARIANTS.length : Int)).toNat Direction.North

/-- struct Pos (raw, possibly out-of-bounds coordinate; isize fields). -/
structure Pos where
  x : Int
  y : Int
deriving DecidableEq, Repr

/-- Direction::to_shift. -/
def Direction.to_shift : Direction → Pos
  | .North => ⟨0, -1⟩
  | .East => ⟨1, 0⟩
  | .South => ⟨0, 1⟩
  | .West => ⟨-1, 0⟩

/-- Whether a direction moves along the vertical axis (used only in proofs). -/
def Direction.isVert : Direction → Bool
  | .North => true
  | .South => true
  | .East => false
  | .West => false

namespace Serious

/-- MapPos of serious.rs: a coordinate pair that can only exist together with a
proof that it is in bounds for the W times H grid (the PhantomData lifetime
binding of the source is modelled by the proof fields). -/
structure MapPos (W H : Nat) where
  x : Nat
  y : Nat
  hx : x < W
  hy : y < H

/-- MapPos::validate_pos — the single admission point into the validated domain. -/
def MapPos.validate_pos (W H : Nat) (pos : Pos) : Except Pos (MapPos W H) :=
  if h : pos.x < 0 ∨ pos.x ≥ (W : Int) ∨ pos.y < 0 ∨ pos.y ≥ (H : Int) then
    .error pos
  else
    .ok ⟨pos.x.toNat, pos.y.toNat, by omega, by omega⟩

/-- The row-major storage index of a validated position (let i = pos.y * W + pos.x). -/
def MapPos.index {W H : Nat} (pos : MapPos W H) : Nat := pos.y * W + pos.x

/-- Map of serious.rs: the BoolVec cell storage, in row-major cell order. -/
abbrev Map : Type := List Bool

/-- Map::new_white — BoolVec::filled_with(W * H, true). -/
def Map.new_white (W H : Nat) : Map := List.replicate (W * H) true

/-- Reading the cell referenced by a validated position (CellMut::is_white). -/
def Map.cellGet {W H : Nat} (m : Map) (pos : MapPos W H) : Bool :=
  m.getD pos.index true

/-- CellMut::invert — set the referenced bit to the negation of its value. -/
def Map.cellInvert {W H : Nat} (m : Map) (pos : MapPos W H) : Map :=
  m.set pos.index (!(m.getD pos.index true))

/-- Map::count_black_tiles — self.0.count() - self.0.count_ones(). -/
def Map.count_black_tiles (m : Map) : Nat := m.length - m.count true

/-- struct Ant of serious.rs; the exclusively borrowed map is part of the state. -/
structure Ant (W H : Nat) where
  map : Map
  pos : MapPos W H
  dir : Direction

/-- Ant::new — construction goes through validate_pos, the error is passed on. -/
def Ant.new {W H : Nat} (map : Map) (pos : Pos) (dir : Direction) :
    Except Pos (Ant W H) :=
  match MapPos.validate_pos W H pos with
  | .ok p => .ok ⟨map, p, dir⟩
  | .error e => .error e

/-- The map after the cell.invert() call at the start of Ant::walk. -/
def Ant.walkMap {W H : Nat} (a : Ant W H) : Map := a.map.cellInvert a.pos

/-- cell.is_white() as read in Ant::walk, after the invert. -/
def Ant.walkWhite {W H : Nat} (a : Ant W H) : Bool := a.walkMap.cellGet a.pos

/-- The new heading chosen in Ant::walk: cw on white, ccw on black. -/
def Ant.walkDir {W H : Nat} (a : Ant W H) : Direction :=
  if a.walkWhite then a.dir.cw else a.dir.ccw

/-- The candidate coordinate self.pos + shift of Ant::walk (the Add impl of MapPos). -/
def Ant.walkCand {W H : Nat} (a : Ant W H) : Pos :=
  ⟨(a.pos.x : Int) + a.walkDir.to_shift.x, (a.pos.y : Int) + a.walkDir.to_shift.y⟩

/-- Ant::walk — one step; returns the new state and whether the ant can walk on. -/
def Ant.walk {W H : Nat} (a : Ant W H) : Ant W H × Bool :=
  match MapPos.validate_pos W H a.walkCand with
  | .ok p => (⟨a.walkMap, p, a.walkDir⟩, true)
  | .error _ => (⟨a.walkMap, a.pos, a.walkDir⟩, false)

/-- The state transformer of one walk call (the loop body of walk_until_end). -/
def Ant.step {W H : Nat} (a : Ant W H) : Ant W H := a.walk.1

/-- The state after n iterations of the walk_until_end loop body. -/
def Ant.runState {W H : Nat} (a : Ant W H) (n : Nat) : Ant W H := Ant.step^[n] a

/-- Modelled from the spec, section 4.4 (Walker state machine), steps 1 to 4:
toggle the cell at p, read its new value, rotate clockwise if the new value is
white and counterclockwise if black, form the candidate p plus the unit vector
of the new heading, validate it, move and report stepped when valid, stay and
report termination when invalid. -/
def specStep {W H : Nat} (a : Ant W H) : Ant W H × Bool :=
  let grid1 := a.map.cellInvert a.pos
  let newVal := grid1.cellGet a.pos
  let h1 := if newVal then a.dir.cw else a.dir.ccw
  let cand : Pos := ⟨(a.pos.x : Int) + h1.to_shift.x, (a.pos.y : Int) + h1.to_shift.y⟩
  match MapPos.validate_pos W H cand with
  | .ok p => (⟨grid1, p, h1⟩, true)
  | .error _ => (⟨grid1, a.pos, h1⟩, false)

end Serious

namespace Naive

/-- Map of naive.rs: [[bool; MAP_SIZE]; MAP_SIZE], row-major (outer index y). -/
abbrev Map : Type := List (List Bool)

/-- Map::new — all cells true. -/
def Map.new : Map := List.replicate MAP_SIZE (List.replicate MAP_SIZE true)

/-- The wrap-around of a Rust `as usize` cast of an isize value. -/
def usizeCast (i : Int) : Nat := (i.emod (2 ^ 64)).toNat

/-- Map::get — self.0.get(pos.y as usize)?.get(pos.x as usize). -/
def Map.get (m : Map) (pos : Pos) : Option Bool :=
  (m[usizeCast pos.y]?).bind fun row => row[usizeCast pos.x]?

/-- Writing through the reference returned by Map::get_mut. -/
def Map.setCell (m : Map) (pos : Pos) (b : Bool) : Map :=
  m.set (usizeCast pos.y) ((m.getD (usizeCast pos.y) []).set (usizeCast pos.x) b)

/-- Map::count_black_tiles — self.0.iter().flatten().filter(|e| !**e).count(). -/
def Map.count_black_tiles (m : Map) : Nat :=
  (m.flatten.filter (fun e => !e)).length

/-- struct Ant of naive.rs (the map is passed to walk by mutable reference). -/
structure Ant where
  pos : Pos
  dir : Direction
deriving DecidableEq, Repr

/-- Ant::new of naive.rs — stores the fields, with no validation at all. -/
def Ant.new (pos : Pos) (dir : Direction) : Ant := ⟨pos, dir⟩

/-- The new heading of one naive walk step, matched on the toggled cell value
(*cell = !*cell; match cell: true is cw, false is ccw). -/
def Ant.walkDir (a : Ant) (c : Bool) : Direction :=
  if !c then a.dir.cw else a.dir.ccw

/-- new_x of the naive walk step. -/
def Ant.walkNX (a : Ant) (c : Bool) : Int := a.pos.x + (a.walkDir c).to_shift.x

/-- new_y of the naive walk step. -/
def Ant.walkNY (a : Ant) (c : Bool) : Int := a.pos.y + (a.walkDir c).to_shift.y

/-- The body of Ant::walk of naive.rs once the cell read has succeeded with
value c: toggle, turn, bounds-check the shifted coordinate. -/
def Ant.walkStep (m : Map) (a : Ant) (c : Bool) : Map × Ant × Bool :=
  let m1 := m.setCell a.pos (!c)
  if a.walkNX c < 0 ∨ a.walkNX c ≥ (MAP_SIZE : Int) ∨ a.walkNY c < 0 ∨
      a.walkNY c ≥ (MAP_SIZE : Int) then
    (m1, ⟨a.pos, a.walkDir c⟩, false)
  else
    (m1, ⟨⟨a.walkNX c, a.walkNY c⟩, a.walkDir c⟩, true)

/-- Ant::walk of naive.rs.  The get_mut(..).unwrap() panic on an out-of-bounds
position is modelled as none. -/
def Ant.walk (m : Map) (a : Ant) : Option (Map × Ant × Bool) :=
  match m.get a.pos with
  | none => none
  | some c => some (Ant.walkStep m a c)

/-- The map-and-ant state after n iterations of the walk_until_end loop body
(none once a step has panicked). -/
def runState (m : Map) (a : Ant) : Nat → Option (Map × Ant)
  | 0 => some (m, a)
  | n + 1 => (runState m a n).bind fun s => (Ant.walk s.1 s.2).map fun r => (r.1, r.2.1)

/-- The boolean returned by the walk call made from state number n. -/
def flagAt (m : Map) (a : Ant) (n : Nat) : Option Bool :=
  (runState m a n).bind fun s => (Ant.walk s.1 s.2).map fun r => r.2.2

end Naive

namespace Serious

/-- How many of the first n loop iterations toggle the cell with storage index i. -/
def visitCount {W H : Nat} (a0 : Ant W H) (i n : Nat) : Nat :=
  ((List.range n).filter (fun t => (a0.runState t).pos.index == i)).length

/-- Direction packed into Fin 4 (used for the finiteness argument). -/
def dirFin (d : Direction) : Fin 4 := ⟨d.toIdx, by cases d <;> simp [Direction.toIdx]⟩

/-- The walker of the 1 by 1 scenario of the spec. -/
def antOneOne : Ant 1 1 :=
  ⟨Map.new_white 1 1, ⟨0, 0, Nat.one_pos, Nat.one_pos⟩, Direction.North⟩

end Serious

/-- A concrete serious walker on the all-white MAP_SIZE by MAP_SIZE grid. -/
def antBig : Serious.Ant MAP_SIZE MAP_SIZE :=
  ⟨Serious.Map.new_white MAP_SIZE MAP_SIZE, ⟨0, 0, by decide, by decide⟩, Direction.North⟩

/-- The correspondence between a naive map-and-walker state and a serious walker
state on the MAP_SIZE by MAP_SIZE grid: well-formed rows, equal cells in
row-major order, equal coordinates and equal heading. -/
def NRel (nm : Naive.Map) (na : Naive.Ant) (a : Serious.Ant MAP_SIZE MAP_SIZE) : Prop :=
  nm.length = MAP_SIZE ∧ (∀ row ∈ nm, row.length = MAP_SIZE) ∧
  nm.flatten = a.map ∧ na.pos.x = (a.pos.x : Int) ∧ na.pos.y = (a.pos.y : Int) ∧
  na.dir = a.dir

/-! ## Basic lemmas about validation and cell access -/

namespace Serious

lemma MapPos.coords_ext {W H : Nat} {p q : MapPos W H} (hx : p.x = q.x) (hy : p.y = q.y) :
    p = q := by
  cases p; cases q; simp_all

lemma validate_pos_ok_coords {W H : Nat} {p : Pos} {mp : MapPos W H}
    (h : MapPos.validate_pos W H p = .ok mp) :
    (mp.x : Int) = p.x ∧ (mp.y : Int) = p.y := by
  unfold MapPos.validate_pos at h
  by_cases hc : p.x < 0 ∨ p.x ≥ (W : Int) ∨ p.y < 0 ∨ p.y ≥ (H : Int)
  · rw [dif_pos hc] at h; cases h
  · rw [dif_neg hc] at h
    cases h
    constructor <;> (simp only []; omega)

lemma validate_pos_of_bounds {W H : Nat} {p : Pos}
    (h0 : 0 ≤ p.x) (h1 : p.x < (W : Int)) (h2 : 0 ≤ p.y) (h3 : p.y < (H : Int)) :
    MapPos.validate_pos W H p = .ok ⟨p.x.toNat, p.y.toNat, by omega, by omega⟩ := by
  unfold MapPos.validate_pos
  rw [dif_neg (by omega)]

lemma validate_pos_err {W H : Nat} {p : Pos}
    (h : ¬(0 ≤ p.x ∧ p.x < (W : Int) ∧ 0 ≤ p.y ∧ p.y < (H : Int))) :
    MapPos.validate_pos W H p = .error p := by
  unfold MapPos.validate_pos
  rw [dif_pos (by omega)]

lemma getD_set_self {α : Type} {l : List α} {i : Nat} (h : i < l.length) (b d : α) :
    (l.set i b).getD i d = b := by
  simp [List.getD, List.getElem?_set_self h]

lemma getD_set_ne {α : Type} {l : List α} {i j : Nat} (h : i ≠ j) (b d : α) :
    (l.set i b).getD j d = l.getD j d := by
  simp [List.getD, List.getElem?_set_ne h]

lemma set_getD_self {α : Type} {l : List α} {i : Nat} (h : i < l.length) (d : α) :
    l.set i (l.getD i d) = l := by
  apply List.ext_getElem?
  intro n
  by_cases hn : i = n
  · subst hn
    rw [List.getElem?_set_self h, List.getD_eq_getElem l d h, List.getElem?_eq_getElem h]
  · rw [List.getElem?_set_ne hn]

lemma lt_length_of_getElem?_eq_some {α : Type} {l : List α} {n : Nat} {a : α}
    (h : l[n]? = some a) : n < l.length := by
  by_contra hn
  rw [List.getElem?_eq_none (by omega)] at h
  cases h

lemma getD_replicate {α : Type} (n i : Nat) (b : α) :
    (List.replicate n b).getD i b = b := by
  by_cases h : i < n
  · rw [List.getD_eq_getElem _ _ (by simpa using h)]
    exact List.getElem_replicate ..
  · rw [List.getD_eq_default _ _ (by simpa using h)]

lemma count_true_add_count_false (l : List Bool) :
    l.count true + l.count false = l.length := by
  induction l with
  | nil => rfl
  | cons a t ih => cases a <;> simp [List.count_cons] <;> omega

lemma length_filter_not (l : List Bool) :
    (l.filter (fun e => !e)).length = l.count false := by
  induction l with
  | nil => rfl
  | cons a t ih => cases a <;> simp [List.count_cons, ih]

lemma count_false_eq_card (l : List Bool) :
    l.count false =
      ((Finset.range l.length).filter (fun i => l.getD i true = false)).card := by
  induction l using List.reverseRecOn with
  | nil => simp
  | append_singleton t a ih =>
    have hcong : (Finset.range t.length).filter (fun i => (t ++ [a]).getD i true = false) =
        (Finset.range t.length).filter (fun i => t.getD i true = false) :=
      Finset.filter_congr fun i hi => by
        rw [List.getD_append t [a] true i (Finset.mem_range.mp hi)]
    have hlast : (t ++ [a]).getD t.length true = a := by
      rw [List.getD_append_right t [a] true t.length le_rfl]
      simp
    rw [List.count_append, List.length_append]
    simp only [List.length_cons, List.length_nil]
    rw [Finset.range_succ, Finset.filter_insert, hlast]
    cases a with
    | false =>
      rw [if_pos rfl, Finset.card_insert_of_not_mem (by simp), hcong, ← ih]
      simp [List.count_cons]
    | true =>
      rw [if_neg (by simp), hcong, ← ih]
      simp

lemma flatten_replicate_replicate (n m : Nat) (b : Bool) :
    (List.replicate n (List.replicate m b)).flatten = List.replicate (n * m) b := by
  induction n with
  | zero => simp
  | succ k ih =>
    rw [List.replicate_succ, List.flatten_cons, ih, Nat.succ_mul, Nat.add_comm,
      List.replicate_add]

lemma Ant.step_map {W H : Nat} (a : Ant W H) : a.step.map = a.map.cellInvert a.pos := by
  unfold Ant.step Ant.walk
  cases h : MapPos.validate_pos W H a.walkCand <;> rfl

lemma Ant.step_dir {W H : Nat} (a : Ant W H) : a.step.dir = a.walkDir := by
  unfold Ant.step Ant.walk
  cases h : MapPos.validate_pos W H a.walkCand <;> rfl

lemma Ant.step_length {W H : Nat} (a : Ant W H) : a.step.map.length = a.map.length := by
  rw [Ant.step_map]
  exact List.length_set ..

lemma Ant.runState_succ {W H : Nat} (a : Ant W H) (n : Nat) :
    a.runState (n + 1) = (a.runState n).step :=
  Function.iterate_succ_apply' ..

lemma Ant.runState_length {W H : Nat} (a : Ant W H) (n : Nat) :
    (a.runState n).map.length = a.map.length := by
  induction n with
  | zero => rfl
  | succ k ih => rw [Ant.runState_succ, Ant.step_length, ih]

lemma visitCount_succ {W H : Nat} (a0 : Ant W H) (i k : Nat) :
    visitCount a0 i (k + 1) =
      visitCount a0 i k + (if (a0.runState k).pos.index = i then 1 else 0) := by
  unfold visitCount
  rw [List.range_succ, List.filter_append, List.length_append]
  by_cases h : (a0.runState k).pos.index = i <;> simp [h]

lemma Ant.runState_cell {W H : Nat} (a0 : Ant W H) (hlen : a0.map.length = W * H)
    (i : Nat) (hi : i < W * H) (n : Nat) :
    (a0.runState n).map.getD i true =
      (if visitCount a0 i n % 2 = 0 then a0.map.getD i true
       else !(a0.map.getD i true)) := by
  induction n with
  | zero => simp [visitCount, Ant.runState]
  | succ k ih =>
    rw [Ant.runState_succ, Ant.step_map]
    by_cases hp : (a0.runState k).pos.index = i
    · have hv : visitCount a0 i (k + 1) = visitCount a0 i k + 1 := by
        rw [visitCount_succ, if_pos hp]
      unfold Map.cellInvert
      rw [hp, getD_set_self (by rw [Ant.runState_length]; omega), ih, hv]
      rcases Nat.mod_two_eq_zero_or_one (visitCount a0 i k) with h2 | h2
      · rw [if_pos h2, if_neg (by omega)]
      · rw [if_neg (by omega), if_pos (by omega), Bool.not_not]
    · have hv : visitCount a0 i (k + 1) = visitCount a0 i k := by
        rw [visitCount_succ, if_neg hp, Nat.add_zero]
      unfold Map.cellInvert
      rw [getD_set_ne hp, ih, hv]

lemma count_black_runState {W H : Nat} (p0 : MapPos W H) (d : Direction) (n : Nat) :
    Map.count_black_tiles ((Ant.runState ⟨Map.new_white W H, p0, d⟩ n).map) =
      ((Finset.range (W * H)).filter
        (fun i =>
          visitCount (⟨Map.new_white W H, p0, d⟩ : Ant W H) i n % 2 = 1)).card := by
  set a0 : Ant W H := ⟨Map.new_white W H, p0, d⟩ with ha0
  have hlen0 : a0.map.length = W * H := by
    rw [ha0]
    exact List.length_replicate ..
  have hlen : (a0.runState n).map.length = W * H := by
    rw [Ant.runState_length, hlen0]
  have h1 : Map.count_black_tiles ((a0.runState n).map) =
      ((a0.runState n).map).count false := by
    unfold Map.count_black_tiles
    have := count_true_add_count_false ((a0.runState n).map)
    omega
  rw [h1, count_false_eq_card, hlen]
  apply congrArg Finset.card
  apply Finset.filter_congr
  intro i hi
  have hcell := Ant.runState_cell a0 hlen0 i (Finset.mem_range.mp hi) n
  have hwhite : a0.map.getD i true = true := by
    rw [ha0]
    exact getD_replicate ..
  rw [hwhite] at hcell
  rw [hcell]
  rcases Nat.mod_two_eq_zero_or_one (visitCount a0 i n) with h2 | h2 <;> simp [h2]

end Serious

/-! ## Claim theorems, first batch -/

/-- Claim C4: for every heading, rotating counterclockwise then clockwise is the
identity, and four clockwise rotations are the identity (cyclic group of order 4). -/
theorem C4_rotation_group : ∀ d : Direction, d.ccw.cw = d ∧ d.cw.cw.cw.cw = d := by
  decide

/-- Claim C5: validate returns ok with exactly the raw coordinates when they are in
bounds, returns the original raw coordinate unchanged as the error otherwise, and
every value of the validated-position type is in bounds (the type has no other
admission point). -/
theorem C5_validate_characterisation (W H : Nat) (p : Pos) :
    ((∃ mp : Serious.MapPos W H, Serious.MapPos.validate_pos W H p = .ok mp ∧
        (mp.x : Int) = p.x ∧ (mp.y : Int) = p.y) ↔
      (0 ≤ p.x ∧ p.x < (W : Int) ∧ 0 ≤ p.y ∧ p.y < (H : Int))) ∧
    (¬(0 ≤ p.x ∧ p.x < (W : Int) ∧ 0 ≤ p.y ∧ p.y < (H : Int)) →
      Serious.MapPos.validate_pos W H p = .error p) ∧
    (∀ mp : Serious.MapPos W H, mp.x < W ∧ mp.y < H) := by
  refine ⟨⟨?_, ?_⟩, fun h => Serious.validate_pos_err h, fun mp => ⟨mp.hx, mp.hy⟩⟩
  · rintro ⟨mp, -, hx, hy⟩
    have := mp.hx
    have := mp.hy
    omega
  · rintro ⟨h0, h1, h2, h3⟩
    exact ⟨_, Serious.validate_pos_of_bounds h0 h1 h2 h3, by simp; omega, by simp; omega⟩

/-- Witness for C5 at the concrete out-of-bounds input (5, 1) on a 3 by 2 grid. -/
theorem C5_witness :
    ((∃ mp : Serious.MapPos 3 2, Serious.MapPos.validate_pos 3 2 ⟨5, 1⟩ = .ok mp ∧
        (mp.x : Int) = (5 : Int) ∧ (mp.y : Int) = (1 : Int)) ↔
      (0 ≤ (5 : Int) ∧ (5 : Int) < ((3 : Nat) : Int) ∧ 0 ≤ (1 : Int) ∧
        (1 : Int) < ((2 : Nat) : Int))) ∧
    (¬(0 ≤ (5 : Int) ∧ (5 : Int) < ((3 : Nat) : Int) ∧ 0 ≤ (1 : Int) ∧
        (1 : Int) < ((2 : Nat) : Int)) →
      Serious.MapPos.validate_pos 3 2 ⟨5, 1⟩ = .error ⟨5, 1⟩) ∧
    (∀ mp : Serious.MapPos 3 2, mp.x < 3 ∧ mp.y < 2) :=
  C5_validate_characterisation 3 2 ⟨5, 1⟩

/-- Claim C1: one walk step toggles the cell at the current position, turns
clockwise when the new value is white and counterclockwise when black, then
validates the candidate cell ahead: on success it moves there reporting true, on
failure it keeps the position reporting false.  The walk function coincides with
the step rule transcribed from the spec. -/
theorem C1_walk_follows_spec (W H : Nat) (a : Serious.Ant W H) :
    a.walk = Serious.specStep a ∧
    a.walk.1.map = a.map.cellInvert a.pos ∧
    a.walk.1.dir =
      (if (a.map.cellInvert a.pos).cellGet a.pos then a.dir.cw else a.dir.ccw) ∧
    (∀ mp, Serious.MapPos.validate_pos W H a.walkCand = .ok mp →
      a.walk = (⟨a.map.cellInvert a.pos, mp, a.walkDir⟩, true)) ∧
    (∀ e, Serious.MapPos.validate_pos W H a.walkCand = .error e →
      a.walk = (⟨a.map.cellInvert a.pos, a.pos, a.walkDir⟩, false)) := by
  refine ⟨rfl, ?_, ?_, ?_, ?_⟩
  · unfold Serious.Ant.walk
    cases h : Serious.MapPos.validate_pos W H a.walkCand <;> rfl
  · unfold Serious.Ant.walk
    cases h : Serious.MapPos.validate_pos W H a.walkCand <;> rfl
  · intro mp h
    unfold Serious.Ant.walk
    rw [h]
    rfl
  · intro e h
    unfold Serious.Ant.walk
    rw [h]
    rfl

/-- Witness for C1 at the concrete 1 by 1 walker. -/
theorem C1_witness :
    Serious.antOneOne.walk = Serious.specStep Serious.antOneOne ∧
    Serious.antOneOne.walk.1.map =
      Serious.antOneOne.map.cellInvert Serious.antOneOne.pos ∧
    Serious.antOneOne.walk.1.dir =
      (if (Serious.antOneOne.map.cellInvert Serious.antOneOne.pos).cellGet
          Serious.antOneOne.pos then
        Serious.antOneOne.dir.cw
      else Serious.antOneOne.dir.ccw) ∧
    (∀ mp, Serious.MapPos.validate_pos 1 1 Serious.antOneOne.walkCand = .ok mp →
      Serious.antOneOne.walk =
        (⟨Serious.antOneOne.map.cellInvert Serious.antOneOne.pos, mp,
          Serious.antOneOne.walkDir⟩, true)) ∧
    (∀ e, Serious.MapPos.validate_pos 1 1 Serious.antOneOne.walkCand = .error e →
      Serious.antOneOne.walk =
        (⟨Serious.antOneOne.map.cellInvert Serious.antOneOne.pos,
          Serious.antOneOne.pos, Serious.antOneOne.walkDir⟩, false)) :=
  C1_walk_follows_spec 1 1 Serious.antOneOne

namespace Naive

lemma get_some_parts {nm : Map} {q : Pos} {c : Bool} (hget : nm.get q = some c) :
    ∃ row, nm[usizeCast q.y]? = some row ∧ row[usizeCast q.x]? = some c := by
  unfold Map.get at hget
  cases hr : nm[usizeCast q.y]? with
  | none => rw [hr] at hget; cases hget
  | some row => rw [hr] at hget; exact ⟨row, rfl, hget⟩

lemma toggle_aux (nm : Map) (q : Pos) (c : Bool) (hget : nm.get q = some c) :
    (nm.setCell q (!c)).setCell q (!(!c)) = nm ∧
    (nm.setCell q (!c)).get q = some (!c) ∧
    (∀ q' : Pos, usizeCast q'.y ≠ usizeCast q.y ∨ usizeCast q'.x ≠ usizeCast q.x →
      (nm.setCell q (!c)).get q' = nm.get q') := by
  obtain ⟨row, hrow, hcell⟩ := get_some_parts hget
  have hylen : usizeCast q.y < nm.length := Serious.lt_length_of_getElem?_eq_some hrow
  have hxlen : usizeCast q.x < row.length := Serious.lt_length_of_getElem?_eq_some hcell
  have hgetD : nm.getD (usizeCast q.y) [] = row := by
    simp [List.getD, hrow]
  have hrowval : row.getD (usizeCast q.x) true = c := by
    simp [List.getD, hcell]
  have hset1 : nm.setCell q (!c) = nm.set (usizeCast q.y) (row.set (usizeCast q.x) (!c)) := by
    unfold Map.setCell
    rw [hgetD]
  refine ⟨?_, ?_, ?_⟩
  · rw [hset1]
    unfold Map.setCell
    rw [Serious.getD_set_self hylen, List.set_set, List.set_set, Bool.not_not]
    rw [← hrowval, Serious.set_getD_self hxlen]
    have h2 := Serious.set_getD_self hylen ([] : List Bool)
    rw [hgetD] at h2
    exact h2
  · rw [hset1]
    unfold Map.get
    rw [List.getElem?_set_self hylen]
    simp only [Option.some_bind]
    rw [List.getElem?_set_self hxlen]
  · intro q' hq'
    rw [hset1]
    unfold Map.get
    by_cases hy : usizeCast q'.y = usizeCast q.y
    · have hx : usizeCast q'.x ≠ usizeCast q.x := by tauto
      rw [hy, List.getElem?_set_self hylen, hrow]
      simp only [Option.some_bind]
      rw [List.getElem?_set_ne (Ne.symm hx)]
    · rw [List.getElem?_set_ne (Ne.symm hy)]

end Naive

/-- Claim C2 as stated is false: the naive variant's walker constructor performs no
validation, so construction succeeds at the out-of-bounds raw coordinate (-1, 0),
yielding a walker holding that coordinate instead of failing. -/
theorem C2_counterexample :
    Naive.Ant.new ⟨-1, 0⟩ Direction.North = ⟨⟨-1, 0⟩, Direction.North⟩ ∧
    ¬(0 ≤ (-1 : Int)) :=
  ⟨rfl, by decide⟩

/-- Claim C2, amended: in the validated (serious) variant, construction succeeds,
yielding an Active walker at the given position over the untouched grid, exactly
when the raw start coordinate is in bounds, and otherwise fails carrying the
rejected coordinate unchanged; the naive variant's constructor merely stores its
arguments and never fails. -/
theorem C2_construction (W H : Nat) (m : Serious.Map) (p : Pos) (d : Direction) :
    ((0 ≤ p.x ∧ p.x < (W : Int) ∧ 0 ≤ p.y ∧ p.y < (H : Int)) →
      ∃ a : Serious.Ant W H, Serious.Ant.new m p d = .ok a ∧
        (a.pos.x : Int) = p.x ∧ (a.pos.y : Int) = p.y ∧ a.map = m ∧ a.dir = d) ∧
    ((∃ a : Serious.Ant W H, Serious.Ant.new m p d = .ok a) →
      (0 ≤ p.x ∧ p.x < (W : Int) ∧ 0 ≤ p.y ∧ p.y < (H : Int))) ∧
    (¬(0 ≤ p.x ∧ p.x < (W : Int) ∧ 0 ≤ p.y ∧ p.y < (H : Int)) →
      (Serious.Ant.new m p d : Except Pos (Serious.Ant W H)) = .error p) ∧
    (∀ (q : Pos) (d' : Direction), Naive.Ant.new q d' = ⟨q, d'⟩) := by
  refine ⟨?_, ?_, ?_, fun q d' => rfl⟩
  · rintro ⟨h0, h1, h2, h3⟩
    refine ⟨⟨m, ⟨p.x.toNat, p.y.toNat, by omega, by omega⟩, d⟩, ?_,
      by show ((p.x.toNat : Nat) : Int) = p.x; omega,
      by show ((p.y.toNat : Nat) : Int) = p.y; omega, rfl, rfl⟩
    unfold Serious.Ant.new
    rw [Serious.validate_pos_of_bounds h0 h1 h2 h3]
  · rintro ⟨a, ha⟩
    unfold Serious.Ant.new at ha
    by_cases hc : 0 ≤ p.x ∧ p.x < (W : Int) ∧ 0 ≤ p.y ∧ p.y < (H : Int)
    · exact hc
    · rw [Serious.validate_pos_err hc] at ha
      cases ha
  · intro hc
    unfold Serious.Ant.new
    rw [Serious.validate_pos_err hc]

/-- Witness for C2's amended theorem at W = H = 2, start (3, 0): construction fails
with the rejected coordinate. -/
theorem C2_witness :
    ((0 ≤ (3 : Int) ∧ (3 : Int) < ((2 : Nat) : Int) ∧ 0 ≤ (0 : Int) ∧
        (0 : Int) < ((2 : Nat) : Int)) →
      ∃ a : Serious.Ant 2 2, Serious.Ant.new [true] ⟨3, 0⟩ Direction.East = .ok a ∧
        (a.pos.x : Int) = (3 : Int) ∧ (a.pos.y : Int) = (0 : Int) ∧
        a.map = [true] ∧ a.dir = Direction.East) ∧
    ((∃ a : Serious.Ant 2 2, Serious.Ant.new [true] ⟨3, 0⟩ Direction.East = .ok a) →
      (0 ≤ (3 : Int) ∧ (3 : Int) < ((2 : Nat) : Int) ∧ 0 ≤ (0 : Int) ∧
        (0 : Int) < ((2 : Nat) : Int))) ∧
    (¬(0 ≤ (3 : Int) ∧ (3 : Int) < ((2 : Nat) : Int) ∧ 0 ≤ (0 : Int) ∧
        (0 : Int) < ((2 : Nat) : Int)) →
      (Serious.Ant.new [true] ⟨3, 0⟩ Direction.East : Except Pos (Serious.Ant 2 2)) =
        .error ⟨3, 0⟩) ∧
    (∀ (q : Pos) (d' : Direction), Naive.Ant.new q d' = ⟨q, d'⟩) :=
  C2_construction 2 2 [true] ⟨3, 0⟩ Direction.East

/-- Claim C7: on the 1 by 1 grid, the walker constructed at (0,0) heading North
halts after exactly one step, having toggled the single cell to black, and the
black-tile count of the resulting grid is 1. -/
theorem C7_one_by_one_scenario :
    Serious.Ant.new (Serious.Map.new_white 1 1) ⟨0, 0⟩ Direction.North =
      .ok Serious.antOneOne ∧
    Serious.antOneOne.walk.2 = false ∧
    Serious.antOneOne.walk.1.map = [false] ∧
    Serious.Map.count_black_tiles Serious.antOneOne.walk.1.map = 1 :=
  ⟨rfl, rfl, rfl, rfl⟩

/-- Claim C8: toggling a cell twice restores the grid, a single toggle leaves every
other cell unchanged, and the black-tile count is unchanged by an even number of
toggles of one cell; likewise for the naive variant's toggle through get_mut. -/
theorem C8_double_toggle (W H : Nat) (m : Serious.Map) (p : Serious.MapPos W H)
    (hi : p.index < m.length) :
    (m.cellInvert p).cellInvert p = m ∧
    (∀ j, j ≠ p.index → (m.cellInvert p).getD j true = m.getD j true) ∧
    (∀ k, (fun mm : Serious.Map => mm.cellInvert p)^[2 * k] m = m) ∧
    (∀ k, Serious.Map.count_black_tiles
        ((fun mm : Serious.Map => mm.cellInvert p)^[2 * k] m) =
      Serious.Map.count_black_tiles m) ∧
    (∀ (nm : Naive.Map) (q : Pos) (c : Bool), nm.get q = some c →
      (nm.setCell q (!c)).setCell q (!(!c)) = nm ∧
      (nm.setCell q (!c)).get q = some (!c) ∧
      (∀ q' : Pos, Naive.usizeCast q'.y ≠ Naive.usizeCast q.y ∨
          Naive.usizeCast q'.x ≠ Naive.usizeCast q.x →
        (nm.setCell q (!c)).get q' = nm.get q')) := by
  have hfix : (m.cellInvert p).cellInvert p = m := by
    unfold Serious.Map.cellInvert
    rw [Serious.getD_set_self hi, List.set_set, Bool.not_not, Serious.set_getD_self hi]
  have hiter : ∀ k, (fun mm : Serious.Map => mm.cellInvert p)^[2 * k] m = m := by
    intro k
    induction k with
    | zero => rfl
    | succ j ihj =>
      rw [Nat.mul_succ, Function.iterate_add_apply]
      have h2 : ((fun mm : Serious.Map => mm.cellInvert p)^[2]) m = m := hfix
      rw [h2, ihj]
  refine ⟨hfix, ?_, hiter, fun k => by rw [hiter k], Naive.toggle_aux⟩
  intro j hj
  unfold Serious.Map.cellInvert
  exact Serious.getD_set_ne (Ne.symm hj) ..

/-- Witness for C8 at a concrete two-cell grid and cell (1, 0). -/
theorem C8_witness :
    Serious.Map.cellInvert
        (Serious.Map.cellInvert [true, true] (⟨1, 0, by omega, by omega⟩ : Serious.MapPos 2 1))
        (⟨1, 0, by omega, by omega⟩ : Serious.MapPos 2 1) = [true, true] ∧
    (∀ j, j ≠ (⟨1, 0, by omega, by omega⟩ : Serious.MapPos 2 1).index →
      (Serious.Map.cellInvert [true, true]
          (⟨1, 0, by omega, by omega⟩ : Serious.MapPos 2 1)).getD j true =
        [true, true].getD j true) ∧
    (∀ k, (fun mm : Serious.Map =>
        mm.cellInvert (⟨1, 0, by omega, by omega⟩ : Serious.MapPos 2 1))^[2 * k]
          [true, true] = [true, true]) ∧
    (∀ k, Serious.Map.count_black_tiles
        ((fun mm : Serious.Map =>
          mm.cellInvert (⟨1, 0, by omega, by omega⟩ : Serious.MapPos 2 1))^[2 * k]
            [true, true]) =
      Serious.Map.count_black_tiles [true, true]) ∧
    (∀ (nm : Naive.Map) (q : Pos) (c : Bool), nm.get q = some c →
      (nm.setCell q (!c)).setCell q (!(!c)) = nm ∧
      (nm.setCell q (!c)).get q = some (!c) ∧
      (∀ q' : Pos, Naive.usizeCast q'.y ≠ Naive.usizeCast q.y ∨
          Naive.usizeCast q'.x ≠ Naive.usizeCast q.x →
        (nm.setCell q (!c)).get q' = nm.get q')) :=
  C8_double_toggle 2 1 [true, true] ⟨1, 0, by omega, by omega⟩ (by simp [Serious.MapPos.index])

/-- Claim C6: count_marked equals the number of black (false) cells in both
variants, is 0 on a freshly created all-white grid, and after any number of loop
iterations equals the number of cells that have been toggled an odd number of
times. -/
theorem C6_count_marked (W H : Nat) :
    (∀ m : Serious.Map, Serious.Map.count_black_tiles m = m.count false) ∧
    (∀ nm : Naive.Map, Naive.Map.count_black_tiles nm = nm.flatten.count false) ∧
    Serious.Map.count_black_tiles (Serious.Map.new_white W H) = 0 ∧
    Naive.Map.count_black_tiles Naive.Map.new = 0 ∧
    (∀ (p0 : Serious.MapPos W H) (d : Direction) (n : Nat),
      Serious.Map.count_black_tiles
          ((Serious.Ant.runState ⟨Serious.Map.new_white W H, p0, d⟩ n).map) =
        ((Finset.range (W * H)).filter
          (fun i =>
            Serious.visitCount (⟨Serious.Map.new_white W H, p0, d⟩ : Serious.Ant W H) i n
              % 2 = 1)).card) := by
  refine ⟨?_, ?_, ?_, ?_, Serious.count_black_runState⟩
  · intro m
    unfold Serious.Map.count_black_tiles
    have := Serious.count_true_add_count_false m
    omega
  · intro nm
    exact Serious.length_filter_not nm.flatten
  · unfold Serious.Map.count_black_tiles Serious.Map.new_white
    simp
  · unfold Naive.Map.count_black_tiles Naive.Map.new
    rw [Serious.length_filter_not, Serious.flatten_replicate_replicate]
    simp [List.count_replicate]

namespace Naive

lemma walkStep_cases (m : Map) (a : Ant) (c : Bool) :
    (Ant.walkStep m a c).1 = m.setCell a.pos (!c) ∧
    (Ant.walkStep m a c).2.1.dir = a.walkDir c ∧
    (((Ant.walkStep m a c).2.2 = false ∧ (Ant.walkStep m a c).2.1.pos = a.pos ∧
        (a.walkNX c < 0 ∨ a.walkNX c ≥ (MAP_SIZE : Int) ∨ a.walkNY c < 0 ∨
          a.walkNY c ≥ (MAP_SIZE : Int))) ∨
      ((Ant.walkStep m a c).2.2 = true ∧
        (Ant.walkStep m a c).2.1.pos = ⟨a.walkNX c, a.walkNY c⟩ ∧
        ¬(a.walkNX c < 0 ∨ a.walkNX c ≥ (MAP_SIZE : Int) ∨ a.walkNY c < 0 ∨
          a.walkNY c ≥ (MAP_SIZE : Int)))) := by
  unfold Ant.walkStep
  by_cases hcond : a.walkNX c < 0 ∨ a.walkNX c ≥ (MAP_SIZE : Int) ∨ a.walkNY c < 0 ∨
      a.walkNY c ≥ (MAP_SIZE : Int) <;>
    simp [hcond]

lemma walk_some {m : Map} {a : Ant} {r : Map × Ant × Bool}
    (h : Ant.walk m a = some r) : ∃ c, m.get a.pos = some c ∧ r = Ant.walkStep m a c := by
  unfold Ant.walk at h
  cases hget : m.get a.pos with
  | none => rw [hget] at h; cases h
  | some c =>
    rw [hget] at h
    cases h
    exact ⟨c, rfl, rfl⟩

lemma walkStep_bounds {m : Map} {a : Ant} (c : Bool)
    (hx0 : 0 ≤ a.pos.x) (hx1 : a.pos.x < (MAP_SIZE : Int))
    (hy0 : 0 ≤ a.pos.y) (hy1 : a.pos.y < (MAP_SIZE : Int)) :
    0 ≤ (Ant.walkStep m a c).2.1.pos.x ∧
    (Ant.walkStep m a c).2.1.pos.x < (MAP_SIZE : Int) ∧
    0 ≤ (Ant.walkStep m a c).2.1.pos.y ∧
    (Ant.walkStep m a c).2.1.pos.y < (MAP_SIZE : Int) := by
  obtain ⟨-, -, hc | hc⟩ := walkStep_cases m a c
  · rw [hc.2.1]
    exact ⟨hx0, hx1, hy0, hy1⟩
  · rw [hc.2.1]
    have hcond := hc.2.2
    refine ⟨?_, ?_, ?_, ?_⟩
    · show 0 ≤ a.walkNX c
      omega
    · show a.walkNX c < (MAP_SIZE : Int)
      omega
    · show 0 ≤ a.walkNY c
      omega
    · show a.walkNY c < (MAP_SIZE : Int)
      omega

lemma runState_bounds {m : Map} {a : Ant}
    (hx0 : 0 ≤ a.pos.x) (hx1 : a.pos.x < (MAP_SIZE : Int))
    (hy0 : 0 ≤ a.pos.y) (hy1 : a.pos.y < (MAP_SIZE : Int)) :
    ∀ (n : Nat) (m' : Map) (a' : Ant), runState m a n = some (m', a') →
      0 ≤ a'.pos.x ∧ a'.pos.x < (MAP_SIZE : Int) ∧
      0 ≤ a'.pos.y ∧ a'.pos.y < (MAP_SIZE : Int) := by
  intro n
  induction n with
  | zero =>
    intro m' a' h
    cases h
    exact ⟨hx0, hx1, hy0, hy1⟩
  | succ k ih =>
    intro m' a' h
    unfold runState at h
    cases hk : runState m a k with
    | none => rw [hk] at h; cases h
    | some s =>
      rw [hk] at h
      simp only [Option.some_bind] at h
      cases hw : Ant.walk s.1 s.2 with
      | none => rw [hw] at h; cases h
      | some r =>
        rw [hw] at h
        simp only [Option.map_some'] at h
        cases h
        obtain ⟨c, -, hr⟩ := walk_some hw
        obtain ⟨b0, b1, b2, b3⟩ := ih s.1 s.2 hk
        have hb := @walkStep_bounds s.1 s.2 c b0 b1 b2 b3
        rw [← hr] at hb
        exact hb

end Naive

/-- Claim C3: the serious walker's position is in bounds after any number of loop
iterations, and a step that reports termination leaves the position unchanged;
in the naive variant, a walker started in bounds keeps an in-bounds position
after any number of successful loop iterations, and a step reporting
termination keeps the position. -/
theorem C3_position_invariant :
    (∀ (W H : Nat) (a0 : Serious.Ant W H) (n : Nat),
      (a0.runState n).pos.x < W ∧ (a0.runState n).pos.y < H ∧
      (((a0.runState n).walk).2 = false →
        ((a0.runState n).walk).1.pos = (a0.runState n).pos)) ∧
    (∀ (m : Naive.Map) (a : Naive.Ant),
      0 ≤ a.pos.x → a.pos.x < (MAP_SIZE : Int) →
      0 ≤ a.pos.y → a.pos.y < (MAP_SIZE : Int) →
      ∀ (n : Nat) (m' : Naive.Map) (a' : Naive.Ant),
        Naive.runState m a n = some (m', a') →
        0 ≤ a'.pos.x ∧ a'.pos.x < (MAP_SIZE : Int) ∧
        0 ≤ a'.pos.y ∧ a'.pos.y < (MAP_SIZE : Int)) ∧
    (∀ (m : Naive.Map) (a : Naive.Ant) (c : Bool),
      (Naive.Ant.walkStep m a c).2.2 = false →
      (Naive.Ant.walkStep m a c).2.1.pos = a.pos) := by
  refine ⟨?_, fun m a h0 h1 h2 h3 => Naive.runState_bounds h0 h1 h2 h3, ?_⟩
  · intro W H a0 n
    refine ⟨(a0.runState n).pos.hx, (a0.runState n).pos.hy, ?_⟩
    intro hflag
    unfold Serious.Ant.walk at hflag ⊢
    cases hv : Serious.MapPos.validate_pos W H (a0.runState n).walkCand with
    | ok p =>
      rw [hv] at hflag
      simp at hflag
    | error e => rfl
  · intro m a c hflag
    obtain ⟨-, -, hc | hc⟩ := Naive.walkStep_cases m a c
    · exact hc.2.1
    · rw [hc.1] at hflag
      cases hflag

/-- Witness for C3 at a concrete one-cell state. -/
theorem C3_witness :
    ((Serious.antOneOne.runState 2).pos.x < 1 ∧ (Serious.antOneOne.runState 2).pos.y < 1 ∧
      (((Serious.antOneOne.runState 2).walk).2 = false →
        ((Serious.antOneOne.runState 2).walk).1.pos = (Serious.antOneOne.runState 2).pos)) ∧
    (∀ (m' : Naive.Map) (a' : Naive.Ant),
      Naive.runState [[true]] ⟨⟨0, 0⟩, Direction.North⟩ 1 = some (m', a') →
      0 ≤ a'.pos.x ∧ a'.pos.x < (MAP_SIZE : Int) ∧
      0 ≤ a'.pos.y ∧ a'.pos.y < (MAP_SIZE : Int)) ∧
    ((Naive.Ant.walkStep [[true]] ⟨⟨0, 0⟩, Direction.North⟩ true).2.2 = false →
      (Naive.Ant.walkStep [[true]] ⟨⟨0, 0⟩, Direction.North⟩ true).2.1.pos = ⟨0, 0⟩) :=
  ⟨(C3_position_invariant.1 1 1 Serious.antOneOne 2),
    (C3_position_invariant.2.1 [[true]] ⟨⟨0, 0⟩, Direction.North⟩ (by decide) (by decide)
      (by decide) (by decide) 1),
    (C3_position_invariant.2.2 [[true]] ⟨⟨0, 0⟩, Direction.North⟩ true)⟩

/-! ## Termination machinery: every run of the walk loop eventually halts -/

lemma shift_sum :
    ∀ d : Direction, d.to_shift.x + d.to_shift.y = 1 ∨ d.to_shift.x + d.to_shift.y = -1 := by
  decide

lemma isVert_cw : ∀ d : Direction, d.cw.isVert = !d.isVert := by decide

lemma isVert_ccw : ∀ d : Direction, d.ccw.isVert = !d.isVert := by decide

namespace Serious

lemma Ant.state_ext {W H : Nat} {a b : Ant W H} (hm : a.map = b.map) (hp : a.pos = b.pos)
    (hd : a.dir = b.dir) : a = b := by
  cases a; cases b; simp_all

lemma dirFin_inj : ∀ d e : Direction, dirFin d = dirFin e → d = e := by decide

lemma Ant.walkDir_cases {W H : Nat} (a : Ant W H) :
    a.walkDir = a.dir.cw ∨ a.walkDir = a.dir.ccw := by
  unfold Ant.walkDir
  by_cases h : a.walkWhite <;> simp [h]

lemma Ant.step_pos_true {W H : Nat} {a : Ant W H} (h : a.walk.2 = true) :
    (a.step.pos.x : Int) = a.pos.x + a.walkDir.to_shift.x ∧
    (a.step.pos.y : Int) = a.pos.y + a.walkDir.to_shift.y := by
  unfold Ant.walk at h
  unfold Ant.step Ant.walk
  cases hv : MapPos.validate_pos W H a.walkCand with
  | ok p =>
    have hc := validate_pos_ok_coords hv
    exact ⟨hc.1, hc.2⟩
  | error e =>
    rw [hv] at h
    simp at h

lemma run_parity {W H : Nat} (a0 : Ant W H)
    (hAll : ∀ n, ((a0.runState n).walk).2 = true) (n : Nat) :
    (((a0.runState n).pos.x : Int) + (a0.runState n).pos.y) % 2
      = (((a0.pos.x : Int) + a0.pos.y) + n) % 2 := by
  induction n with
  | zero => simp [Ant.runState]
  | succ k ih =>
    rw [Ant.runState_succ]
    have hs := Ant.step_pos_true (hAll k)
    rcases shift_sum ((a0.runState k).walkDir) with hsum | hsum <;> omega

lemma run_axis {W H : Nat} (a0 : Ant W H) (n : Nat) :
    (a0.runState n).dir.isVert =
      (if n % 2 = 0 then a0.dir.isVert else !a0.dir.isVert) := by
  induction n with
  | zero => simp [Ant.runState]
  | succ k ih =>
    rw [Ant.runState_succ, Ant.step_dir]
    have hflip : ((a0.runState k).walkDir).isVert = !((a0.runState k).dir.isVert) := by
      rcases Ant.walkDir_cases (a0.runState k) with hd | hd <;> rw [hd]
      · exact isVert_cw ..
      · exact isVert_ccw ..
    rw [hflip, ih]
    rcases Nat.mod_two_eq_zero_or_one k with h2 | h2
    · rw [if_pos h2, if_neg (by omega)]
    · rw [if_neg (by omega), if_pos (by omega), Bool.not_not]

lemma exists_repeat {W H : Nat} (a0 : Ant W H) :
    ∃ t1 t2, t1 < t2 ∧ a0.runState t2 = a0.runState t1 := by
  obtain ⟨u, v, huv, heq⟩ := Finite.exists_ne_map_eq_of_infinite
    (fun n : ℕ =>
      ((fun i : Fin a0.map.length => (a0.runState n).map.getD i true),
        (⟨(a0.runState n).pos.x, (a0.runState n).pos.hx⟩ : Fin W),
        (⟨(a0.runState n).pos.y, (a0.runState n).pos.hy⟩ : Fin H),
        dirFin (a0.runState n).dir))
  simp only [Prod.mk.injEq] at heq
  obtain ⟨hmap, hpx, hpy, hdir⟩ := heq
  have hstate : a0.runState u = a0.runState v := by
    apply Ant.state_ext
    · apply List.ext_getElem
      · rw [Ant.runState_length, Ant.runState_length]
      · intro i hi1 hi2
        have hiL : i < a0.map.length := by
          rw [Ant.runState_length] at hi1
          exact hi1
        have hgd := congrFun hmap (⟨i, hiL⟩ : Fin a0.map.length)
        simp only [] at hgd
        rw [List.getD_eq_getElem _ _ hi1, List.getD_eq_getElem _ _ hi2] at hgd
        exact hgd
    · exact MapPos.coords_ext (congrArg Fin.val hpx) (congrArg Fin.val hpy)
    · exact dirFin_inj _ _ hdir
  rcases Nat.lt_or_ge u v with h | h
  · exact ⟨u, v, h, hstate.symm⟩
  · exact ⟨v, u, by omega, hstate⟩

lemma runState_add {W H : Nat} (a0 : Ant W H) (m k : Nat) :
    a0.runState (m + k) = (a0.runState m).runState k := by
  unfold Ant.runState
  rw [Nat.add_comm, Function.iterate_add_apply]

lemma runState_periodic {W H : Nat} {a0 : Ant W H} {t1 p : Nat}
    (hper : a0.runState (t1 + p) = a0.runState t1) (k : Nat) :
    a0.runState (t1 + k + p) = a0.runState (t1 + k) := by
  have h1 : a0.runState (t1 + k + p) = (a0.runState (t1 + p)).runState k := by
    rw [← runState_add]
    congr 1
    omega
  rw [h1, hper, ← runState_add]

lemma runState_mod {W H : Nat} {a0 : Ant W H} {t1 p : Nat} (hp : 0 < p)
    (hper : a0.runState (t1 + p) = a0.runState t1) :
    ∀ k, a0.runState (t1 + k) = a0.runState (t1 + k % p) := by
  intro k
  induction k using Nat.strong_induction_on with
  | _ k ih =>
    by_cases hk : k < p
    · rw [Nat.mod_eq_of_lt hk]
    · have h2 : t1 + k = t1 + (k - p) + p := by omega
      have hmod : k % p = (k - p) % p := Nat.mod_eq_sub_mod (by omega)
      rw [h2, runState_periodic hper, ih (k - p) (by omega), hmod]

end Serious

namespace Serious

lemma index_inj_aux {W H : Nat} (q r : MapPos W H) (h : q.index = r.index) :
    q.x = r.x ∧ q.y = r.y := by
  unfold MapPos.index at h
  have hq := q.hx
  have hr := r.hx
  constructor
  · have e1 : (q.y * W + q.x) % W = q.x := by
      rw [Nat.mul_comm q.y W, Nat.mul_add_mod, Nat.mod_eq_of_lt hq]
    have e2 : (r.y * W + r.x) % W = r.x := by
      rw [Nat.mul_comm r.y W, Nat.mul_add_mod, Nat.mod_eq_of_lt hr]
    rw [← e1, ← e2, h]
  · have hW : 0 < W := by omega
    have f1 : (q.y * W + q.x) / W = q.y := by
      rw [Nat.mul_comm q.y W, Nat.mul_add_div hW, Nat.div_eq_of_lt hq, Nat.add_zero]
    have f2 : (r.y * W + r.x) / W = r.y := by
      rw [Nat.mul_comm r.y W, Nat.mul_add_div hW, Nat.div_eq_of_lt hr, Nat.add_zero]
    rw [← f1, ← f2, h]

/-- Every run of the walk loop of the serious variant halts: the ant cannot cycle
inside the finite grid forever. -/
theorem walk_terminates {W H : Nat} (a0 : Ant W H) (hlen : a0.map.length = W * H) :
    ∃ n, ((a0.runState n).walk).2 = false := by
  classical
  by_contra hno
  push_neg at hno
  have hAll : ∀ n, ((a0.runState n).walk).2 = true := by
    intro n
    cases hb : ((a0.runState n).walk).2
    · exact absurd hb (hno n)
    · rfl
  obtain ⟨t1, t2, ht12, hper0⟩ := exists_repeat a0
  have hp : 0 < t2 - t1 := by omega
  have hper : a0.runState (t1 + (t2 - t1)) = a0.runState t1 := by
    rw [show t1 + (t2 - t1) = t2 by omega]
    exact hper0
  set p := t2 - t1 with hpdef
  have hKne : ((Finset.range p).image
      (fun r => (a0.runState (t1 + r)).pos.index)).Nonempty :=
    ⟨(a0.runState (t1 + 0)).pos.index,
      Finset.mem_image_of_mem _ (Finset.mem_range.mpr hp)⟩
  set K := (Finset.range p).image (fun r => (a0.runState (t1 + r)).pos.index) with hK
  set Mi := K.max' hKne with hMidef
  obtain ⟨r0, hr0mem, hr0⟩ := Finset.mem_image.mp (K.max'_mem hKne)
  set tM := t1 + r0 with htM
  obtain ⟨Mx, My, hMxe, hMye⟩ :
      ∃ mx my, (a0.runState tM).pos.x = mx ∧ (a0.runState tM).pos.y = my :=
    ⟨_, _, rfl, rfl⟩
  have hMxW : Mx < W := by rw [← hMxe]; exact (a0.runState tM).pos.hx
  have hMyH : My < H := by rw [← hMye]; exact (a0.runState tM).pos.hy
  have hMi_eq : Mi = My * W + Mx := by
    rw [hMidef, ← hr0]
    unfold MapPos.index
    rw [hMxe, hMye]
  have hMax : ∀ t, t1 ≤ t → (a0.runState t).pos.index ≤ Mi := by
    intro t ht
    have h1 := runState_mod hp hper (t - t1)
    rw [show t1 + (t - t1) = t by omega] at h1
    rw [h1, hMidef]
    apply Finset.le_max'
    rw [hK]
    exact Finset.mem_image_of_mem _ (Finset.mem_range.mpr (Nat.mod_lt _ hp))
  have hforbid : ∀ t, t1 ≤ t →
      ¬((a0.runState t).pos.x = Mx + 1 ∧ (a0.runState t).pos.y = My) ∧
      ¬((a0.runState t).pos.x = Mx ∧ (a0.runState t).pos.y = My + 1) := by
    intro t ht
    have h1 := hMax t ht
    rw [hMi_eq] at h1
    unfold MapPos.index at h1
    constructor
    · rintro ⟨hx1, hy1⟩
      rw [hx1, hy1] at h1
      generalize My * W = A at h1
      omega
    · rintro ⟨hx1, hy1⟩
      rw [hx1, hy1, Nat.add_mul, Nat.one_mul] at h1
      generalize My * W = A at h1
      omega
  have harrive : ∀ v, t1 + 1 ≤ v →
      (a0.runState v).pos.x = Mx → (a0.runState v).pos.y = My →
      (a0.runState v).dir = Direction.South ∨ (a0.runState v).dir = Direction.East := by
    intro v hv hvx hvy
    obtain ⟨s, rfl⟩ : ∃ s, v = s + 1 := ⟨v - 1, by omega⟩
    have hs := Ant.step_pos_true (hAll s)
    rw [← Ant.runState_succ] at hs
    have hd : (a0.runState s).walkDir = (a0.runState (s + 1)).dir := by
      rw [Ant.runState_succ, Ant.step_dir]
    rw [hd] at hs
    have hforb := hforbid s (by omega)
    cases hdir : (a0.runState (s + 1)).dir with
    | North =>
      exfalso
      rw [hdir] at hs
      simp only [Direction.to_shift] at hs
      exact hforb.2 ⟨by omega, by omega⟩
    | West =>
      exfalso
      rw [hdir] at hs
      simp only [Direction.to_shift] at hs
      exact hforb.1 ⟨by omega, by omega⟩
    | South => exact Or.inl rfl
    | East => exact Or.inr rfl
  have hexit : ∀ v, t1 ≤ v →
      (a0.runState v).pos.x = Mx → (a0.runState v).pos.y = My →
      (a0.runState (v + 1)).dir = Direction.North ∨
        (a0.runState (v + 1)).dir = Direction.West := by
    intro v hv hvx hvy
    have hs := Ant.step_pos_true (hAll v)
    rw [← Ant.runState_succ] at hs
    have hd : (a0.runState v).walkDir = (a0.runState (v + 1)).dir := by
      rw [Ant.runState_succ, Ant.step_dir]
    rw [hd] at hs
    have hforb := hforbid (v + 1) (by omega)
    cases hdir : (a0.runState (v + 1)).dir with
    | South =>
      exfalso
      rw [hdir] at hs
      simp only [Direction.to_shift] at hs
      exact hforb.2 ⟨by omega, by omega⟩
    | East =>
      exfalso
      rw [hdir] at hs
      simp only [Direction.to_shift] at hs
      exact hforb.1 ⟨by omega, by omega⟩
    | North => exact Or.inl rfl
    | West => exact Or.inr rfl
  have hMi_lt : Mi < W * H := by
    rw [hMi_eq]
    have h1 : My * W + Mx < (My + 1) * W := by
      rw [Nat.add_mul, Nat.one_mul]
      generalize My * W = A
      omega
    have h2 : (My + 1) * W ≤ H * W := Nat.mul_le_mul_right W (by omega)
    rw [Nat.mul_comm W H]
    omega
  have hidxM : ∀ v, (a0.runState v).pos.x = Mx → (a0.runState v).pos.y = My →
      (a0.runState v).pos.index = Mi := by
    intro v hvx hvy
    unfold MapPos.index
    rw [hvx, hvy, hMi_eq]
  have hval_toggle : ∀ v, (a0.runState v).pos.x = Mx → (a0.runState v).pos.y = My →
      (a0.runState (v + 1)).map.getD Mi true = !((a0.runState v).map.getD Mi true) := by
    intro v hvx hvy
    rw [Ant.runState_succ, Ant.step_map]
    unfold Map.cellInvert
    rw [hidxM v hvx hvy, getD_set_self (by rw [Ant.runState_length, hlen]; exact hMi_lt)]
  have hval_skip : ∀ v, ¬((a0.runState v).pos.x = Mx ∧ (a0.runState v).pos.y = My) →
      (a0.runState (v + 1)).map.getD Mi true = (a0.runState v).map.getD Mi true := by
    intro v hnv
    rw [Ant.runState_succ, Ant.step_map]
    unfold Map.cellInvert
    apply getD_set_ne
    intro hidx
    have hMpos : (a0.runState tM).pos.index = Mi := hr0
    have hco := index_inj_aux (a0.runState v).pos (a0.runState tM).pos
      (by rw [hidx, hMpos])
    rw [hMxe] at hco
    rw [hMye] at hco
    exact hnv ⟨hco.1, hco.2⟩
  have hforced : ∀ v, t1 + 1 ≤ v →
      (a0.runState v).pos.x = Mx → (a0.runState v).pos.y = My →
      ((a0.runState v).dir = Direction.South ∧
        (a0.runState (v + 1)).map.getD Mi true = true) ∨
      ((a0.runState v).dir = Direction.East ∧
        (a0.runState (v + 1)).map.getD Mi true = false) := by
    intro v hv hvx hvy
    have harr := harrive v hv hvx hvy
    have hex := hexit v (by omega) hvx hvy
    have hd : (a0.runState (v + 1)).dir = (a0.runState v).walkDir := by
      rw [Ant.runState_succ, Ant.step_dir]
    have hwd : (a0.runState v).walkDir =
        (if (a0.runState (v + 1)).map.getD Mi true then (a0.runState v).dir.cw
         else (a0.runState v).dir.ccw) := by
      unfold Ant.walkDir Ant.walkWhite Ant.walkMap Map.cellGet
      rw [Ant.runState_succ, Ant.step_map]
      rw [hidxM v hvx hvy]
    rcases harr with hS | hE
    · left
      refine ⟨hS, ?_⟩
      cases hb : (a0.runState (v + 1)).map.getD Mi true
      · exfalso
        rw [hwd, hb, hS] at hd
        have hccwS : (if (false = true) then Direction.South.cw else Direction.South.ccw) =
            Direction.East := by decide
        rw [hccwS] at hd
        rcases hex with h | h <;> rw [hd] at h <;> exact absurd h (by decide)
      · rfl
    · right
      refine ⟨hE, ?_⟩
      cases hb : (a0.runState (v + 1)).map.getD Mi true
      · rfl
      · exfalso
        rw [hwd, hb, hE] at hd
        have hcwE : (if (true = true) then Direction.East.cw else Direction.East.ccw) =
            Direction.South := by decide
        rw [hcwE] at hd
        rcases hex with h | h <;> rw [hd] at h <;> exact absurd h (by decide)
  have hvisit_per : ∀ t, t1 ≤ t → a0.runState (t + p) = a0.runState t := by
    intro t ht
    have h1 : t + p = t1 + (t - t1) + p := by omega
    have h2 : t1 + (t - t1) = t := by omega
    rw [h1, runState_periodic hper, h2]
  have hv0ge : t1 + 1 ≤ tM + p := by omega
  have hvis0 : (a0.runState (tM + p)).pos.x = Mx ∧ (a0.runState (tM + p)).pos.y = My := by
    rw [hvisit_per tM (by omega)]
    exact ⟨hMxe, hMye⟩
  have hQex : ∃ u, (tM + p < u) ∧ (a0.runState u).pos.x = Mx ∧
      (a0.runState u).pos.y = My := by
    refine ⟨tM + p + p, by omega, ?_⟩
    rw [hvisit_per (tM + p) (by omega)]
    exact hvis0
  set v1 := Nat.find hQex with hv1def
  have hv1spec := Nat.find_spec hQex
  have hv1min : ∀ u, u < v1 →
      ¬(tM + p < u ∧ (a0.runState u).pos.x = Mx ∧ (a0.runState u).pos.y = My) :=
    fun u hu => Nat.find_min hQex hu
  set v0 := tM + p with hv0def
  have hchain : ∀ u, v0 + 1 ≤ u → u ≤ v1 →
      (a0.runState u).map.getD Mi true = (a0.runState (v0 + 1)).map.getD Mi true := by
    intro u
    induction u with
    | zero => intro h1 h2; exact absurd h1 (by omega)
    | succ w ihw =>
      intro h1 h2
      by_cases hw : v0 + 1 ≤ w
      · have hnv : ¬((a0.runState w).pos.x = Mx ∧ (a0.runState w).pos.y = My) := by
          intro hvis
          exact hv1min w (by omega) ⟨by omega, hvis.1, hvis.2⟩
        rw [hval_skip w hnv]
        exact ihw hw (by omega)
      · have hw1 : w + 1 = v0 + 1 := by omega
        rw [hw1]
  have hpar : v0 % 2 = v1 % 2 := by
    have h0 := run_parity a0 hAll v0
    have h1 := run_parity a0 hAll v1
    rw [hvis0.1, hvis0.2] at h0
    rw [hv1spec.2.1, hv1spec.2.2] at h1
    omega
  have haxis : (a0.runState v0).dir.isVert = (a0.runState v1).dir.isVert := by
    rw [run_axis a0 v0, run_axis a0 v1]
    rcases Nat.mod_two_eq_zero_or_one v0 with h2 | h2
    · rw [if_pos h2, if_pos (by omega)]
    · rw [if_neg (by omega), if_neg (by omega)]
  have hfor0 := hforced v0 hv0ge hvis0.1 hvis0.2
  have hfor1 := hforced v1 (by omega) hv1spec.2.1 hv1spec.2.2
  have hval1 : (a0.runState v1).map.getD Mi true =
      (a0.runState (v0 + 1)).map.getD Mi true :=
    hchain v1 (by omega) le_rfl
  have htog1 := hval_toggle v1 hv1spec.2.1 hv1spec.2.2
  rcases hfor0 with ⟨hd0, hc0⟩ | ⟨hd0, hc0⟩ <;>
    rcases hfor1 with ⟨hd1, hc1⟩ | ⟨hd1, hc1⟩
  · rw [htog1, hval1, hc0] at hc1
    exact absurd hc1 (by decide)
  · rw [hd0, hd1] at haxis
    exact absurd haxis (by decide)
  · rw [hd0, hd1] at haxis
    exact absurd haxis (by decide)
  · rw [htog1, hval1, hc0] at hc1
    exact absurd hc1 (by decide)
end Serious

namespace Serious

lemma MapPos.index_lt {W H : Nat} (p : MapPos W H) : p.index < W * H := by
  unfold MapPos.index
  have h1 : p.y * W + p.x < (p.y + 1) * W := by
    rw [Nat.add_mul, Nat.one_mul]
    have := p.hx
    generalize p.y * W = A
    omega
  have h2 : (p.y + 1) * W ≤ H * W := Nat.mul_le_mul_right W p.hy
  rw [Nat.mul_comm W H]
  omega

end Serious

namespace Naive

lemma usizeCast_natCast (n : Nat) (h : n < 2 ^ 64) : usizeCast (n : Int) = n := by
  unfold usizeCast
  have h2 : (2 : Int) ^ 64 = 18446744073709551616 := by norm_num
  have h3 : (2 : Nat) ^ 64 = 18446744073709551616 := by norm_num
  rw [h2]
  rw [h3] at h
  show ((n : Int) % 18446744073709551616).toNat = n
  omega

lemma flatten_length_uniform (m : Map) (W : Nat) (hrows : ∀ row ∈ m, row.length = W) :
    m.flatten.length = m.length * W := by
  induction m with
  | nil => simp
  | cons r t ih =>
    rw [List.flatten_cons, List.length_append, List.length_cons,
      ih (fun row hrow => hrows row (List.mem_cons_of_mem r hrow)),
      hrows r (List.mem_cons_self ..)]
    ring

lemma flatten_getElem? (m : Map) (W : Nat) (hrows : ∀ row ∈ m, row.length = W)
    (y x : Nat) (hy : y < m.length) (hx : x < W) :
    m.flatten[y * W + x]? = (m.getD y [])[x]? := by
  induction m generalizing y with
  | nil => cases hy
  | cons r t ih =>
    have hrW : r.length = W := hrows r (List.mem_cons_self ..)
    cases y with
    | zero =>
      rw [List.flatten_cons]
      simp only [Nat.zero_mul, Nat.zero_add]
      rw [List.getElem?_append_left (by omega)]
      rfl
    | succ y' =>
      have hy' : y' < t.length := by
        have := hy
        simp [List.length_cons] at this
        omega
      rw [List.flatten_cons]
      have hidx : (y' + 1) * W + x = r.length + (y' * W + x) := by
        rw [hrW, Nat.add_mul, Nat.one_mul]
        ring
      rw [hidx, List.getElem?_append_right (by omega), Nat.add_sub_cancel_left]
      rw [ih (fun row hrow => hrows row (List.mem_cons_of_mem r hrow)) y' hy']
      rfl

lemma flatten_set (m : Map) (W : Nat) (hrows : ∀ row ∈ m, row.length = W)
    (y x : Nat) (hy : y < m.length) (hx : x < W) (b : Bool) :
    (m.set y ((m.getD y []).set x b)).flatten = m.flatten.set (y * W + x) b := by
  induction m generalizing y with
  | nil => cases hy
  | cons r t ih =>
    have hrW : r.length = W := hrows r (List.mem_cons_self ..)
    cases y with
    | zero =>
      show ((r :: t).set 0 (r.set x b)).flatten = ((r ++ t.flatten).set (0 * W + x) b)
      simp only [Nat.zero_mul, Nat.zero_add, List.set_cons_zero]
      rw [List.flatten_cons, List.set_append_left _ _ (by omega)]
    | succ y' =>
      have hy' : y' < t.length := by
        have := hy
        simp [List.length_cons] at this
        omega
      show ((r :: t).set (y' + 1) ((t.getD y' []).set x b)).flatten =
        ((r ++ t.flatten).set ((y' + 1) * W + x) b)
      rw [List.set_cons_succ, List.flatten_cons,
        ih (fun row hrow => hrows row (List.mem_cons_of_mem r hrow)) y' hy']
      have hidx : (y' + 1) * W + x = r.length + (y' * W + x) := by
        rw [hrW, Nat.add_mul, Nat.one_mul]
        ring
      rw [hidx, List.set_append_right _ _ (by omega), Nat.add_sub_cancel_left]

end Naive

lemma NRel_maplen {nm : Naive.Map} {na : Naive.Ant} {a : Serious.Ant MAP_SIZE MAP_SIZE}
    (h : NRel nm na a) : a.map.length = MAP_SIZE * MAP_SIZE := by
  obtain ⟨h1, h2, h3, -⟩ := h
  rw [← h3, Naive.flatten_length_uniform nm MAP_SIZE h2, h1]

lemma walk_rel {nm : Naive.Map} {na : Naive.Ant} {a : Serious.Ant MAP_SIZE MAP_SIZE}
    (h : NRel nm na a) :
    Naive.Ant.walk nm na =
      some (Naive.Ant.walkStep nm na (Serious.Map.cellGet a.map a.pos)) ∧
    NRel (Naive.Ant.walkStep nm na (Serious.Map.cellGet a.map a.pos)).1
      (Naive.Ant.walkStep nm na (Serious.Map.cellGet a.map a.pos)).2.1 a.step ∧
    (Naive.Ant.walkStep nm na (Serious.Map.cellGet a.map a.pos)).2.2 = a.walk.2 := by
  have hmaplen := NRel_maplen h
  obtain ⟨hlen, hrows, hflat, hpx, hpy, hdir⟩ := h
  have hms : MAP_SIZE = 1024 := rfl
  have hxB := a.pos.hx
  have hyB := a.pos.hy
  have hidx := Serious.MapPos.index_lt a.pos
  have hyi : Naive.usizeCast na.pos.y = a.pos.y := by
    rw [hpy]
    exact Naive.usizeCast_natCast _ (by omega)
  have hxi : Naive.usizeCast na.pos.x = a.pos.x := by
    rw [hpx]
    exact Naive.usizeCast_natCast _ (by omega)
  have hyl : a.pos.y < nm.length := by omega
  have hget : Naive.Map.get nm na.pos = some (Serious.Map.cellGet a.map a.pos) := by
    unfold Naive.Map.get
    rw [hyi, hxi, List.getElem?_eq_getElem hyl]
    simp only [Option.some_bind]
    rw [← List.getD_eq_getElem nm [] hyl,
      (Naive.flatten_getElem? nm MAP_SIZE hrows a.pos.y a.pos.x hyl a.pos.hx).symm, hflat]
    show a.map[a.pos.index]? = some (Serious.Map.cellGet a.map a.pos)
    rw [List.getElem?_eq_getElem (by omega)]
    unfold Serious.Map.cellGet
    rw [List.getD_eq_getElem _ _ (by omega)]
  have hwhite : a.walkWhite = !(Serious.Map.cellGet a.map a.pos) := by
    unfold Serious.Ant.walkWhite Serious.Ant.walkMap Serious.Map.cellGet Serious.Map.cellInvert
    rw [Serious.getD_set_self (by omega)]
  have hdir1 : Naive.Ant.walkDir na (Serious.Map.cellGet a.map a.pos) = a.walkDir := by
    unfold Naive.Ant.walkDir Serious.Ant.walkDir
    rw [hwhite, hdir]
  have hnx : Naive.Ant.walkNX na (Serious.Map.cellGet a.map a.pos) = a.walkCand.x := by
    unfold Naive.Ant.walkNX Serious.Ant.walkCand
    rw [hpx, hdir1]
  have hny : Naive.Ant.walkNY na (Serious.Map.cellGet a.map a.pos) = a.walkCand.y := by
    unfold Naive.Ant.walkNY Serious.Ant.walkCand
    rw [hpy, hdir1]
  have hflat1 : (nm.setCell na.pos (!(Serious.Map.cellGet a.map a.pos))).flatten =
      a.walkMap := by
    unfold Naive.Map.setCell Serious.Ant.walkMap Serious.Map.cellInvert
    rw [hyi, hxi,
      Naive.flatten_set nm MAP_SIZE hrows a.pos.y a.pos.x hyl a.pos.hx, hflat]
    show a.map.set a.pos.index (!(Serious.Map.cellGet a.map a.pos)) =
      a.map.set a.pos.index (!(a.map.getD a.pos.index true))
    rfl
  have hlen1 : (nm.setCell na.pos (!(Serious.Map.cellGet a.map a.pos))).length =
      MAP_SIZE := by
    unfold Naive.Map.setCell
    rw [List.length_set, hlen]
  have hrows1 : ∀ row ∈ nm.setCell na.pos (!(Serious.Map.cellGet a.map a.pos)),
      row.length = MAP_SIZE := by
    intro row hrow
    unfold Naive.Map.setCell at hrow
    rcases List.mem_or_eq_of_mem_set hrow with hmem | heq
    · exact hrows row hmem
    · rw [heq, List.length_set]
      apply hrows
      rw [List.getD_eq_getElem nm [] (by rw [hyi]; exact hyl)]
      exact List.getElem_mem ..
  refine ⟨?_, ?_, ?_⟩
  · unfold Naive.Ant.walk
    rw [hget]
  · cases hv : Serious.MapPos.validate_pos MAP_SIZE MAP_SIZE a.walkCand with
    | ok mp =>
      have hcoords := Serious.validate_pos_ok_coords hv
      have hmx := mp.hx
      have hmy := mp.hy
      have hcond' : ¬(Naive.Ant.walkNX na (Serious.Map.cellGet a.map a.pos) < 0 ∨
          Naive.Ant.walkNX na (Serious.Map.cellGet a.map a.pos) ≥ (MAP_SIZE : Int) ∨
          Naive.Ant.walkNY na (Serious.Map.cellGet a.map a.pos) < 0 ∨
          Naive.Ant.walkNY na (Serious.Map.cellGet a.map a.pos) ≥ (MAP_SIZE : Int)) := by
        rw [hnx, hny]
        have h1 := hcoords.1
        have h2 := hcoords.2
        omega
      have hstep : a.step = ⟨a.walkMap, mp, a.walkDir⟩ := by
        unfold Serious.Ant.step Serious.Ant.walk
        rw [hv]
      unfold Naive.Ant.walkStep
      rw [if_neg hcond', hstep]
      refine ⟨hlen1, hrows1, hflat1, ?_, ?_, hdir1⟩
      · show Naive.Ant.walkNX na (Serious.Map.cellGet a.map a.pos) = (mp.x : Int)
        rw [hnx, hcoords.1]
      · show Naive.Ant.walkNY na (Serious.Map.cellGet a.map a.pos) = (mp.y : Int)
        rw [hny, hcoords.2]
    | error e =>
      have hcondC : a.walkCand.x < 0 ∨ a.walkCand.x ≥ (MAP_SIZE : Int) ∨
          a.walkCand.y < 0 ∨ a.walkCand.y ≥ (MAP_SIZE : Int) := by
        by_contra hC
        rw [Serious.validate_pos_of_bounds (by omega) (by omega) (by omega) (by omega)] at hv
        cases hv
      have hcond' : (Naive.Ant.walkNX na (Serious.Map.cellGet a.map a.pos) < 0 ∨
          Naive.Ant.walkNX na (Serious.Map.cellGet a.map a.pos) ≥ (MAP_SIZE : Int) ∨
          Naive.Ant.walkNY na (Serious.Map.cellGet a.map a.pos) < 0 ∨
          Naive.Ant.walkNY na (Serious.Map.cellGet a.map a.pos) ≥ (MAP_SIZE : Int)) := by
        rw [hnx, hny]
        exact hcondC
      have hstep : a.step = ⟨a.walkMap, a.pos, a.walkDir⟩ := by
        unfold Serious.Ant.step Serious.Ant.walk
        rw [hv]
      unfold Naive.Ant.walkStep
      rw [if_pos hcond', hstep]
      exact ⟨hlen1, hrows1, hflat1, hpx, hpy, hdir1⟩
  · cases hv : Serious.MapPos.validate_pos MAP_SIZE MAP_SIZE a.walkCand with
    | ok mp =>
      have hcoords := Serious.validate_pos_ok_coords hv
      have hmx := mp.hx
      have hmy := mp.hy
      have hcond' : ¬(Naive.Ant.walkNX na (Serious.Map.cellGet a.map a.pos) < 0 ∨
          Naive.Ant.walkNX na (Serious.Map.cellGet a.map a.pos) ≥ (MAP_SIZE : Int) ∨
          Naive.Ant.walkNY na (Serious.Map.cellGet a.map a.pos) < 0 ∨
          Naive.Ant.walkNY na (Serious.Map.cellGet a.map a.pos) ≥ (MAP_SIZE : Int)) := by
        rw [hnx, hny]
        have h1 := hcoords.1
        have h2 := hcoords.2
        omega
      have hflag : a.walk.2 = true := by
        unfold Serious.Ant.walk
        rw [hv]
      unfold Naive.Ant.walkStep
      rw [if_neg hcond', hflag]
    | error e =>
      have hcondC : a.walkCand.x < 0 ∨ a.walkCand.x ≥ (MAP_SIZE : Int) ∨
          a.walkCand.y < 0 ∨ a.walkCand.y ≥ (MAP_SIZE : Int) := by
        by_contra hC
        rw [Serious.validate_pos_of_bounds (by omega) (by omega) (by omega) (by omega)] at hv
        cases hv
      have hcond' : (Naive.Ant.walkNX na (Serious.Map.cellGet a.map a.pos) < 0 ∨
          Naive.Ant.walkNX na (Serious.Map.cellGet a.map a.pos) ≥ (MAP_SIZE : Int) ∨
          Naive.Ant.walkNY na (Serious.Map.cellGet a.map a.pos) < 0 ∨
          Naive.Ant.walkNY na (Serious.Map.cellGet a.map a.pos) ≥ (MAP_SIZE : Int)) := by
        rw [hnx, hny]
        exact hcondC
      have hflag : a.walk.2 = false := by
        unfold Serious.Ant.walk
        rw [hv]
      unfold Naive.Ant.walkStep
      rw [if_pos hcond', hflag]

lemma runState_rel {nm : Naive.Map} {na : Naive.Ant} {a : Serious.Ant MAP_SIZE MAP_SIZE}
    (h : NRel nm na a) (n : Nat) :
    ∃ nm' na', Naive.runState nm na n = some (nm', na') ∧
      NRel nm' na' (a.runState n) ∧
      Naive.flagAt nm na n = some ((a.runState n).walk.2) := by
  induction n with
  | zero =>
    refine ⟨nm, na, rfl, h, ?_⟩
    obtain ⟨hw, -, hf⟩ := walk_rel h
    unfold Naive.flagAt
    show (some (nm, na)).bind _ = _
    simp only [Option.some_bind]
    rw [hw]
    simp only [Option.map_some']
    rw [hf]
    rfl
  | succ k ih =>
    obtain ⟨nm', na', hrun, hrel, hflag⟩ := ih
    obtain ⟨hw, hrel', hf⟩ := walk_rel hrel
    have hrun1 : Naive.runState nm na (k + 1) =
        some ((Naive.Ant.walkStep nm' na'
            (Serious.Map.cellGet ((a.runState k)).map ((a.runState k)).pos)).1,
          (Naive.Ant.walkStep nm' na'
            (Serious.Map.cellGet ((a.runState k)).map ((a.runState k)).pos)).2.1) := by
      show (Naive.runState nm na k).bind _ = _
      rw [hrun]
      simp only [Option.some_bind]
      rw [hw]
      simp only [Option.map_some']
    refine ⟨_, _, hrun1, ?_, ?_⟩
    · rw [Serious.Ant.runState_succ]
      exact hrel'
    · unfold Naive.flagAt
      rw [hrun1]
      simp only [Option.some_bind]
      obtain ⟨hw2, -, hf2⟩ := walk_rel hrel'
      rw [hw2]
      simp only [Option.map_some']
      rw [hf2, Serious.Ant.runState_succ]

lemma count_black_eq_count_false (m : Serious.Map) :
    Serious.Map.count_black_tiles m = m.count false := by
  unfold Serious.Map.count_black_tiles
  have := Serious.count_true_add_count_false m
  omega

lemma NRel_init (x y : Int) (d : Direction)
    (hx0 : 0 ≤ x) (hx1 : x < (MAP_SIZE : Int)) (hy0 : 0 ≤ y) (hy1 : y < (MAP_SIZE : Int)) :
    NRel Naive.Map.new ⟨⟨x, y⟩, d⟩
      ⟨Serious.Map.new_white MAP_SIZE MAP_SIZE,
        ⟨x.toNat, y.toNat, by omega, by omega⟩, d⟩ := by
  refine ⟨List.length_replicate .., ?_, ?_, by show x = ((x.toNat : Nat) : Int); omega,
    by show y = ((y.toNat : Nat) : Int); omega, rfl⟩
  · intro row hrow
    rw [List.eq_of_mem_replicate hrow]
    exact List.length_replicate ..
  · show (List.replicate MAP_SIZE (List.replicate MAP_SIZE true)).flatten =
      List.replicate (MAP_SIZE * MAP_SIZE) true
    exact Serious.flatten_replicate_replicate ..

/-- Claim C10: the walk_until_end loop always terminates.  In the serious variant,
for every grid size, every grid state of the right storage size, every validated
position and every heading, some iteration's walk call reports false; in the
naive variant, every well-formed 1024 by 1024 state with an in-bounds walker
reaches an iteration whose walk call reports false. -/
theorem C10_termination :
    (∀ (W H : Nat) (a0 : Serious.Ant W H), a0.map.length = W * H →
      ∃ n, ((a0.runState n).walk).2 = false) ∧
    (∀ (nm : Naive.Map) (na : Naive.Ant),
      nm.length = MAP_SIZE → (∀ row ∈ nm, row.length = MAP_SIZE) →
      0 ≤ na.pos.x → na.pos.x < (MAP_SIZE : Int) →
      0 ≤ na.pos.y → na.pos.y < (MAP_SIZE : Int) →
      ∃ n, Naive.flagAt nm na n = some false) := by
  refine ⟨fun W H a0 hlen => Serious.walk_terminates a0 hlen, ?_⟩
  intro nm na h1 h2 hx0 hx1 hy0 hy1
  have hrel : NRel nm na
      ⟨nm.flatten, ⟨na.pos.x.toNat, na.pos.y.toNat, by omega, by omega⟩, na.dir⟩ :=
    ⟨h1, h2, rfl, by show na.pos.x = ((na.pos.x.toNat : Nat) : Int); omega,
      by show na.pos.y = ((na.pos.y.toNat : Nat) : Int); omega, rfl⟩
  have hlenS : (⟨nm.flatten, ⟨na.pos.x.toNat, na.pos.y.toNat, by omega, by omega⟩,
      na.dir⟩ : Serious.Ant MAP_SIZE MAP_SIZE).map.length = MAP_SIZE * MAP_SIZE := by
    show nm.flatten.length = MAP_SIZE * MAP_SIZE
    rw [Naive.flatten_length_uniform nm MAP_SIZE h2, h1]
  obtain ⟨n, hn⟩ := Serious.walk_terminates _ hlenS
  obtain ⟨nm', na', -, -, hflag⟩ := runState_rel hrel n
  refine ⟨n, ?_⟩
  rw [hflag, hn]

/-- Witness for C10: the 1 by 1 serious walker and a 1024 by 1024 naive walker both
halt. -/
theorem C10_witness :
    (∃ n, ((Serious.antOneOne.runState n).walk).2 = false) ∧
    (∃ n, Naive.flagAt Naive.Map.new ⟨⟨0, 0⟩, Direction.North⟩ n = some false) :=
  ⟨C10_termination.1 1 1 Serious.antOneOne rfl,
    C10_termination.2 Naive.Map.new ⟨⟨0, 0⟩, Direction.North⟩
      (List.length_replicate ..)
      (fun row hrow => by
        rw [List.eq_of_mem_replicate hrow]
        exact List.length_replicate ..)
      (by decide) (by decide) (by decide) (by decide)⟩

/-- Claim C9: on the all-white 1024 by 1024 grid, for every in-bounds start and
heading, the naive and the serious variant run in lockstep: they halt at the same
iteration, and at that point they agree on the final position, the final heading
and the black-tile count. -/
theorem C9_variants_agree (x y : Int) (d : Direction)
    (hx0 : 0 ≤ x) (hx1 : x < (MAP_SIZE : Int)) (hy0 : 0 ≤ y) (hy1 : y < (MAP_SIZE : Int))
    (aS : Serious.Ant MAP_SIZE MAP_SIZE)
    (hnew : Serious.Ant.new (Serious.Map.new_white MAP_SIZE MAP_SIZE) ⟨x, y⟩ d = .ok aS) :
    ∃ n,
      ((aS.runState n).walk).2 = false ∧
      (∀ m, m < n → ((aS.runState m).walk).2 = true) ∧
      Naive.flagAt Naive.Map.new ⟨⟨x, y⟩, d⟩ n = some false ∧
      (∀ m, m < n → Naive.flagAt Naive.Map.new ⟨⟨x, y⟩, d⟩ m = some true) ∧
      ∃ nmF naF, Naive.runState Naive.Map.new ⟨⟨x, y⟩, d⟩ (n + 1) = some (nmF, naF) ∧
        naF.pos.x = ((aS.runState (n + 1)).pos.x : Int) ∧
        naF.pos.y = ((aS.runState (n + 1)).pos.y : Int) ∧
        naF.dir = (aS.runState (n + 1)).dir ∧
        Naive.Map.count_black_tiles nmF =
          Serious.Map.count_black_tiles ((aS.runState (n + 1)).map) := by
  classical
  unfold Serious.Ant.new at hnew
  rw [Serious.validate_pos_of_bounds hx0 hx1 hy0 hy1] at hnew
  cases hnew
  have hrel := NRel_init x y d hx0 hx1 hy0 hy1
  have hlenS : (Serious.Map.new_white MAP_SIZE MAP_SIZE).length = MAP_SIZE * MAP_SIZE :=
    List.length_replicate ..
  have hterm := Serious.walk_terminates
    (⟨Serious.Map.new_white MAP_SIZE MAP_SIZE,
      ⟨x.toNat, y.toNat, by omega, by omega⟩, d⟩ : Serious.Ant MAP_SIZE MAP_SIZE) hlenS
  refine ⟨Nat.find hterm, Nat.find_spec hterm, ?_, ?_, ?_, ?_⟩
  · intro m hm
    have := Nat.find_min hterm hm
    cases hb : ((Serious.Ant.runState _ m).walk).2
    · exact absurd hb this
    · rfl
  · obtain ⟨nm', na', -, -, hflag⟩ := runState_rel hrel (Nat.find hterm)
    rw [hflag, Nat.find_spec hterm]
  · intro m hm
    obtain ⟨nm', na', -, -, hflag⟩ := runState_rel hrel m
    rw [hflag]
    have := Nat.find_min hterm hm
    cases hb : ((Serious.Ant.runState _ m).walk).2
    · exact absurd hb this
    · rfl
  · obtain ⟨nmF, naF, hrun, hrelF, -⟩ := runState_rel hrel (Nat.find hterm + 1)
    obtain ⟨hl1, hl2, hl3, hl4, hl5, hl6⟩ := hrelF
    refine ⟨nmF, naF, hrun, hl4, hl5, hl6, ?_⟩
    unfold Naive.Map.count_black_tiles
    rw [Serious.length_filter_not, hl3, count_black_eq_count_false]

/-- Witness for C9 at the concrete start (0, 0) heading North. -/
theorem C9_witness :
    ∃ n,
      ((antBig.runState n).walk).2 = false ∧
      (∀ m, m < n → ((antBig.runState m).walk).2 = true) ∧
      Naive.flagAt Naive.Map.new ⟨⟨0, 0⟩, Direction.North⟩ n = some false ∧
      (∀ m, m < n → Naive.flagAt Naive.Map.new ⟨⟨0, 0⟩, Direction.North⟩ m = some true) ∧
      ∃ nmF naF,
        Naive.runState Naive.Map.new ⟨⟨0, 0⟩, Direction.North⟩ (n + 1) =
          some (nmF, naF) ∧
        naF.pos.x = ((antBig.runState (n + 1)).pos.x : Int) ∧
        naF.pos.y = ((antBig.runState (n + 1)).pos.y : Int) ∧
        naF.dir = (antBig.runState (n + 1)).dir ∧
        Naive.Map.count_black_tiles nmF =
          Serious.Map.count_black_tiles ((antBig.runState (n + 1)).map) :=
  C9_variants_agree 0 0 Direction.North (by decide) (by decide) (by decide) (by decide)
    antBig rfl
